import Mathlib

/-!
Verification of the AutoStash backup engine (src/core/backup_logic.py)
against its natural-language specification.

The Python code is shallowly embedded: filesystem and git effects are made
explicit as state records, fallible external operations (rsync, gpg, git
push) are abstracted as boolean/function-valued oracles passed to the
embedded functions, and every embedded function mirrors the control flow of
the corresponding Python method.  Strings model Python strings; paths are
manipulated through character lists so that all definitions evaluate inside
the kernel.
-/

namespace AutoStash

/-! ## Path primitives (posixpath semantics, for normalized paths) -/

/-- Split a character list on the separator character, like Python's
str.split on a single character: split "a/b" gives two groups. -/
def splitSep (sep : Char) : List Char → List (List Char)
  | [] => [[]]
  | c :: rest =>
    match splitSep sep rest with
    | [] => [[]]
    | g :: gs => if c = sep then [] :: g :: gs else (c :: g) :: gs

/-- Join character-list groups with a slash, like "/".join. -/
def joinSlash : List (List Char) → List Char
  | [] => []
  | [g] => g
  | g :: gs => g ++ '/' :: joinSlash gs

/-- Model of os.path.basename for paths without redundant separators:
everything after the last slash. -/
def basename (p : String) : String :=
  String.mk ((splitSep '/' p.data).getLastD [])

/-- Model of os.path.dirname for paths without redundant separators:
everything before the last slash, with dirname of a one-level absolute
path being the root. -/
def dirname (p : String) : String :=
  let parts := splitSep '/' p.data
  if parts.length ≤ 1 then ""
  else
    let h := joinSlash parts.dropLast
    if h = [] then "/" else String.mk h

/-- Model of os.path.join for two components: an absolute second component
replaces the first; otherwise they are glued with a single slash unless the
first is empty or already ends in a slash. -/
def joinPath (a b : String) : String :=
  if b.data.head? = some '/' then b
  else if a = "" ∨ a.data.getLast? = some '/' then a ++ b
  else a ++ "/" ++ b

/-- Python str[1:]: drop the first character. -/
def dropFirst (s : String) : String :=
  String.mk (s.data.drop 1)

/-- Model of "_".join. -/
def joinUnderscore : List String → String
  | [] => ""
  | [s] => s
  | s :: rest => s ++ "_" ++ joinUnderscore rest

/-! ## Snapshot naming (BackupManager.run, lines 81-88)

The run builds the backup directory name from the run timestamp and the
basenames of the source folders; only the first three basenames are used,
with an "_etc" suffix when more folders were given. -/

/-- The joined-basename part of the snapshot name: up to three folder
names, then "_etc" when folders were dropped. -/
def backupNamePart (folder_names : List String) : String :=
  let joined := joinUnderscore (folder_names.take 3)
  if folder_names.length > 3 then joined ++ "_etc" else joined

/-- The generated snapshot directory name for one run. -/
def backup_folder_name (timestamp : String) (folders : List String) : String :=
  "Backup_" ++ timestamp ++ "_" ++ backupNamePart (folders.map basename)

/-! ## System-File Collector (BackupManager._backup_system_files, lines 385-421)

The collector receives a destination directory, creates a "system_config"
subdirectory under it, and copies each existing file of a fixed allow-list
into that subdirectory, mirroring the file's original directory structure
(its dirname minus the leading separator).  Missing files are skipped, a
PermissionError is logged and skipped, any other per-file error is logged
and skipped; the loop never aborts.  The outcome of the OS-level checks and
of the copy is abstracted by a per-path status oracle. -/

/-- Status of one allow-listed path on the machine being backed up. -/
inductive FileStatus where
  | absent
  | unreadable
  | readable
deriving DecidableEq

/-- The fixed allow-list of system configuration files. -/
def critical_files : List String :=
  ["/etc/fstab",
   "/etc/hosts",
   "/etc/passwd",
   "/etc/group",
   "/etc/shadow",
   "/etc/gshadow",
   "/etc/sudoers",
   "/etc/resolv.conf",
   "/etc/hostname",
   "/etc/network/interfaces",
   "/etc/apt/sources.list",
   "/etc/ssh/sshd_config",
   "/etc/ssh/ssh_config",
   "/etc/ssl/certs/ca-certificates.crt",
   "/etc/environment",
   "/etc/profile",
   "/etc/bash.bashrc"]

/-- Destination of one copied file: join of the system_config path, the
file's dirname with its leading slash stripped, and its basename. -/
def copyTarget (sbp fp : String) : String :=
  joinPath (joinPath sbp (dropFirst (dirname fp))) (basename fp)

/-- The collector's loop over the allow-list: first component collects the
(source, destination) copies performed, second the paths skipped with a
logged permission warning; absent paths leave no trace. -/
def backupSysLoop (sbp : String) (fs : String → FileStatus) :
    List String → List (String × String) × List String
  | [] => ([], [])
  | fp :: rest =>
    match fs fp with
    | .absent => backupSysLoop sbp fs rest
    | .unreadable =>
        ((backupSysLoop sbp fs rest).1, fp :: (backupSysLoop sbp fs rest).2)
    | .readable =>
        ((fp, copyTarget sbp fp) :: (backupSysLoop sbp fs rest).1,
         (backupSysLoop sbp fs rest).2)

/-- BackupManager._backup_system_files on its fixed allow-list. -/
def backup_system_files (dest_dir : String) (fs : String → FileStatus) :
    List (String × String) × List String :=
  backupSysLoop (joinPath dest_dir "system_config") fs critical_files

/-- A string with a nonempty right append factor is nonempty. -/
theorem str_append_ne_empty (a b : String) (hb : b ≠ "") : a ++ b ≠ "" := by
  intro h
  apply hb
  have hl := congrArg String.length h
  rw [String.length_append] at hl
  have hz : b.length = 0 := by
    have : ("" : String).length = 0 := rfl
    omega
  apply String.ext
  have : b.data.length = 0 := hz
  exact List.length_eq_zero.mp this

/-- The last character of an append with nonempty right factor is the last
character of the right factor. -/
theorem str_getLast_append (a b : String) (hb : b ≠ "") :
    (a ++ b).data.getLast? = b.data.getLast? := by
  rw [String.data_append, List.getLast?_append]
  cases hd : b.data.getLast? with
  | none =>
    exfalso
    apply hb
    apply String.ext
    exact List.getLast?_eq_none_iff.mp hd
  | some c => rfl

/-- os.path.join glues with a single slash when the left part is nonempty
and slash-free at its end and the right part is not absolute. -/
theorem joinPath_eq (a b : String) (ha : a ≠ "")
    (hal : a.data.getLast? ≠ some '/') (hb : b.data.head? ≠ some '/') :
    joinPath a b = a ++ "/" ++ b := by
  unfold joinPath
  rw [if_neg hb, if_neg]
  intro h
  rcases h with h | h
  · exact ha h
  · exact hal h

/-- Expanded form of the copy destination under mild shape conditions on
the components, all decidable for the concrete allow-list entries. -/
theorem copyTarget_eq (sbp fp : String)
    (h1 : sbp ≠ "") (h2 : sbp.data.getLast? ≠ some '/')
    (h3 : (dropFirst (dirname fp)).data.head? ≠ some '/')
    (h4 : dropFirst (dirname fp) ≠ "")
    (h5 : (dropFirst (dirname fp)).data.getLast? ≠ some '/')
    (h6 : (basename fp).data.head? ≠ some '/') :
    copyTarget sbp fp = sbp ++ "/" ++ dropFirst (dirname fp) ++ "/" ++ basename fp := by
  unfold copyTarget
  rw [joinPath_eq sbp _ h1 h2 h3]
  apply joinPath_eq
  · exact str_append_ne_empty _ _ h4
  · rw [str_getLast_append _ _ h4]
    exact h5
  · exact h6

/-- Soundness of the collector loop: every readable listed file is copied
to its computed target, everything copied is a readable listed file, and
the logged-skip list is exactly the unreadable listed files. -/
theorem backupSysLoop_sound (sbp : String) (fs : String → FileStatus) :
    ∀ l : List String,
      (∀ fp ∈ l, fs fp = .readable →
          (fp, copyTarget sbp fp) ∈ (backupSysLoop sbp fs l).1)
      ∧ (∀ pr ∈ (backupSysLoop sbp fs l).1, pr.1 ∈ l ∧ fs pr.1 = .readable)
      ∧ (∀ fp, fp ∈ (backupSysLoop sbp fs l).2 ↔ fp ∈ l ∧ fs fp = .unreadable) := by
  intro l
  induction l with
  | nil => simp [backupSysLoop]
  | cons fp0 rest ih =>
    obtain ⟨ih1, ih2, ih3⟩ := ih
    refine ⟨?_, ?_, ?_⟩
    · intro fp hfp hr
      rcases List.mem_cons.mp hfp with heq | hmem
      · subst heq
        simp only [backupSysLoop, hr]
        exact List.mem_cons_self _ _
      · cases hfs : fs fp0 <;> simp only [backupSysLoop, hfs] <;>
          first
            | exact ih1 fp hmem hr
            | exact List.mem_cons_of_mem _ (ih1 fp hmem hr)
    · intro pr hpr
      cases hfs : fs fp0 <;> simp only [backupSysLoop, hfs] at hpr
      · have := ih2 pr hpr
        exact ⟨List.mem_cons_of_mem _ this.1, this.2⟩
      · have := ih2 pr hpr
        exact ⟨List.mem_cons_of_mem _ this.1, this.2⟩
      · rcases List.mem_cons.mp hpr with heq | hmem
        · subst heq
          exact ⟨List.mem_cons_self _ _, hfs⟩
        · have := ih2 pr hmem
          exact ⟨List.mem_cons_of_mem _ this.1, this.2⟩
    · intro fp
      cases hfs : fs fp0 <;> simp only [backupSysLoop, hfs]
      · rw [ih3 fp]
        constructor
        · rintro ⟨hm, hu⟩
          exact ⟨List.mem_cons_of_mem _ hm, hu⟩
        · rintro ⟨hm, hu⟩
          rcases List.mem_cons.mp hm with heq | hmem
          · subst heq
            rw [hfs] at hu
            cases hu
          · exact ⟨hmem, hu⟩
      · constructor
        · intro h
          rcases List.mem_cons.mp h with heq | hmem
          · subst heq
            exact ⟨List.mem_cons_self _ _, hfs⟩
          · have := (ih3 fp).mp hmem
            exact ⟨List.mem_cons_of_mem _ this.1, this.2⟩
        · rintro ⟨hm, hu⟩
          rcases List.mem_cons.mp hm with heq | hmem
          · subst heq
            exact List.mem_cons_self _ _
          · exact List.mem_cons_of_mem _ ((ih3 fp).mpr ⟨hmem, hu⟩)
      · rw [ih3 fp]
        constructor
        · rintro ⟨hm, hu⟩
          exact ⟨List.mem_cons_of_mem _ hm, hu⟩
        · rintro ⟨hm, hu⟩
          rcases List.mem_cons.mp hm with heq | hmem
          · subst heq
            rw [hfs] at hu
            cases hu
          · exact ⟨hmem, hu⟩

/-! ## Packager (BackupManager._process_backup_files, lines 423-504)

The staging directory holds the manifest (metadata.json), possibly a
temporary manifest copy (metadata.json.tmp), and one subdirectory per
staged source folder.  Packaging first copies the manifest to the
temporary name, then per folder optionally collapses the files to one
archive and optionally encrypts (requiring at least one key), and finally
moves the temporary copy back over the manifest — on the success path and
on the exception path alike.  Exceptions raised partway through a folder
are injected through an oracle; the no-key failure is modelled directly.
When no manifest exists at the start, the temporary-name variable is never
bound and both restore sites raise a NameError, which the model returns as
an error without restoring anything. -/

/-- One staged folder: its directory name and the files inside it. -/
structure PFolder where
  name : String
  files : List String
deriving DecidableEq

/-- The staging directory of one run as seen by the packager. -/
structure Staging where
  manifestContent : Option String
  tmpContent : Option String
  folders : List PFolder
deriving DecidableEq

/-- Packaging of one folder: compression collapses its files to a single
backup.tar.gz; encryption demands a key and then either replaces the
archive by backup.tar.gz.gpg or encrypts every file individually. -/
def processOne (compress encrypt : Bool) (keys : List String) (f : PFolder) :
    Except String PFolder :=
  let f1 := if compress then { f with files := ["backup.tar.gz"] } else f
  if encrypt then
    match keys with
    | [] => Except.error "No GPG keys found. Please create a key first."
    | _ :: _ =>
      if compress then Except.ok { f1 with files := ["backup.tar.gz.gpg"] }
      else Except.ok { f1 with files := f1.files.map (fun n => n ++ ".gpg") }
  else Except.ok f1

/-- The folder loop of the packager: processes folders in order and stops
at the first exception, leaving the remaining folders untouched.  The
oracle injects an exception raised partway through a folder. -/
def processFoldersGo (compress encrypt : Bool) (keys : List String)
    (fails : String → Bool) : List PFolder → List PFolder × Option String
  | [] => ([], none)
  | f :: rest =>
    if fails f.name then (f :: rest, some ("processing raised at " ++ f.name))
    else
      match processOne compress encrypt keys f with
      | .error e => (f :: rest, some e)
      | .ok f2 =>
        ((f2 :: (processFoldersGo compress encrypt keys fails rest).1),
         (processFoldersGo compress encrypt keys fails rest).2)

/-- BackupManager._process_backup_files: shield the manifest via a
temporary copy, run the folder loop, restore the temporary copy on both
the success and the failure path, and propagate any error wrapped with
context. -/
def process_backup_files (compress encrypt : Bool) (keys : List String)
    (fails : String → Bool) (st : Staging) : Staging × Option String :=
  match st.manifestContent with
  | some m =>
    let st1 : Staging := { st with tmpContent := some m }
    let res := processFoldersGo compress encrypt keys fails st1.folders
    let st2 : Staging := { st1 with folders := res.1 }
    let st3 : Staging :=
      { st2 with manifestContent := st2.tmpContent, tmpContent := none }
    (st3, res.2.map (fun e => "Failed to process backup files: " ++ e))
  | none =>
    let res := processFoldersGo compress encrypt keys fails st.folders
    ({ st with folders := res.1 },
     some "NameError: temp_metadata referenced before assignment")

/-! ## Repository sync (BackupManager._git_commit_push, lines 584-599)

If the working copy is dirty or has untracked files the method stages
everything and commits, then pushes; a push rejection is answered by one
pull followed by one retried push; a failure of the pull or of the retried
push escapes to the enclosing handler, which re-raises a wrapped sync
error.  Push and pull outcomes are oracles of the environment. -/

/-- Outcomes of the git operations available to one commit-and-push call. -/
structure GitEnv where
  dirtyOrUntracked : Bool
  push1Ok : Bool
  pullOk : Bool
  push2Ok : Bool
deriving DecidableEq

/-- Observable effects of one commit-and-push call. -/
structure GitResult where
  committed : Bool
  pushAttempts : Nat
  pullAttempts : Nat
  err : Option String
deriving DecidableEq

/-- BackupManager._git_commit_push. -/
def git_commit_push (g : GitEnv) : GitResult :=
  if g.dirtyOrUntracked then
    if g.push1Ok then ⟨true, 1, 0, none⟩
    else if g.pullOk then
      if g.push2Ok then ⟨true, 2, 1, none⟩
      else ⟨true, 2, 1, some "Git error: the retried push was rejected"⟩
    else ⟨true, 1, 1, some "Git error: the pull before the retry failed"⟩
  else ⟨false, 0, 0, none⟩

/-! ## The backup run (BackupManager.run, lines 47-330)

The run validates its inputs, prepares the repository, stages each folder
in order, writes and verifies the manifest, optionally packages, commits
and pushes, and finally records the last-run marker and appends to the
history ledger.  Any exception up to and including the commit/push aborts
the run and deletes the staging directory; an exception in the marker or
ledger step is only logged and the run still returns a success result.
Each fallible step is an oracle of the environment. -/

/-- Oracles for every fallible step of one backup run. -/
structure RunEnv where
  folderOk : String → Bool
  copyOk : String → Bool
  repoAccessible : Bool
  prepareOk : Bool
  metadataOk : Bool
  processOk : Bool
  git : GitEnv
  recordTimeOk : Bool
  appendHistoryOk : Bool

/-- Durable effects of one backup run: whether the staging directory still
exists at the end, whether a snapshot commit and push happened, and
whether the last-run marker and the history ledger were written. -/
structure RunState where
  stagingExists : Bool
  committed : Bool
  pushed : Bool
  lastRunRecorded : Bool
  historyAppended : Bool
deriving DecidableEq

/-- The success payload returned by BackupManager.run. -/
structure RunResult where
  status : String
  backup_name : String
deriving DecidableEq

/-- State before any run effect, and after a failed run's cleanup. -/
def initRunState : RunState := ⟨false, false, false, false, false⟩

/-- The staging loop of the run: folders are processed in order and the
first copy failure raises, wrapped with the folder name. -/
def stageFolders (env : RunEnv) : List String → Option String
  | [] => none
  | f :: rest =>
    if env.copyOk f then stageFolders env rest
    else some ("Failed to backup folder " ++ f)

/-- BackupManager.run.  The returned state reflects the outer exception
handler: every failure path deletes the staging directory built so far. -/
def run (env : RunEnv) (folders : List String) (ts : String)
    (encrypt compress : Bool) : RunState × Except String RunResult :=
  if folders = [] then (initRunState, .error "No folders specified for backup")
  else if ¬ folders.all env.folderOk then
    (initRunState, .error "Folder does not exist or is not readable")
  else if ¬ env.repoAccessible then
    (initRunState, .error "Repository does not exist or no access")
  else if ¬ env.prepareOk then
    (initRunState, .error "Failed to prepare repository")
  else
    match stageFolders env folders with
    | some e => (initRunState, .error e)
    | none =>
      if ¬ env.metadataOk then
        (initRunState, .error "Failed to save backup metadata")
      else if (compress || encrypt) ∧ ¬ env.processOk then
        (initRunState, .error "Failed to process backup files")
      else
        match (git_commit_push env.git).err with
        | some e =>
          ({ initRunState with committed := (git_commit_push env.git).committed },
           .error ("Failed to commit and push changes: " ++ e))
        | none =>
          let s1 : RunState :=
            ⟨true, (git_commit_push env.git).committed,
             (git_commit_push env.git).committed, false, false⟩
          if env.recordTimeOk then
            if env.appendHistoryOk then
              ({ s1 with lastRunRecorded := true, historyAppended := true },
               .ok ⟨"success", backup_folder_name ts folders⟩)
            else
              ({ s1 with lastRunRecorded := true },
               .ok ⟨"success", backup_folder_name ts folders⟩)
          else (s1, .ok ⟨"success", backup_folder_name ts folders⟩)

/-! ## History Ledger (BackupManager.sync_backup_history, lines 703-782)

A ledger file is a sequence of lines.  Reading strips and drops blank
lines; each remaining line either fails to parse, parses without a truthy
timestamp, or parses with a timestamp.  The merge walks the repository
entries then the local entries with one shared seen-timestamp set, keeping
only parseable timestamped lines whose timestamp was not seen, sorts the
result by timestamp descending (Python sort is stable; with the
deduplicated keys the order is fully determined), and writes both ledgers
and commits only when the new content differs from the current repository
ledger content.  Python string comparison is code-point lexicographic,
embedded below as a structurally recursive Boolean order. -/

/-- Code-point lexicographic string comparison, as Python compares str. -/
def strLeB : List Char → List Char → Bool
  | [], _ => true
  | _ :: _, [] => false
  | a :: as, b :: bs =>
    if a.toNat < b.toNat then true
    else if b.toNat < a.toNat then false
    else strLeB as bs

/-- strLeB is total. -/
theorem strLeB_total : ∀ as bs : List Char,
    strLeB as bs = true ∨ strLeB bs as = true := by
  intro as
  induction as with
  | nil => intro bs; left; rfl
  | cons a as ih =>
    intro bs
    cases bs with
    | nil => right; rfl
    | cons b bs =>
      by_cases hab : a.toNat < b.toNat
      · left; simp [strLeB, hab]
      · by_cases hba : b.toNat < a.toNat
        · right; simp [strLeB, hba]
        · rcases ih bs with h | h
          · left; simp [strLeB, hab, hba, h]
          · right; simp [strLeB, hab, hba, h]

/-- strLeB is transitive. -/
theorem strLeB_trans : ∀ as bs cs : List Char,
    strLeB as bs = true → strLeB bs cs = true → strLeB as cs = true := by
  intro as
  induction as with
  | nil => intro bs cs h1 h2; rfl
  | cons a as ih =>
    intro bs cs h1 h2
    cases bs with
    | nil => simp [strLeB] at h1
    | cons b bs =>
      cases cs with
      | nil => simp [strLeB] at h2
      | cons c cs =>
        by_cases hab : a.toNat < b.toNat
        · by_cases hbc : b.toNat < c.toNat
          · have hac : a.toNat < c.toNat := lt_trans hab hbc
            simp [strLeB, hac]
          · by_cases hcb : c.toNat < b.toNat
            · simp [strLeB, hbc, hcb] at h2
            · have hac : a.toNat < c.toNat := by omega
              simp [strLeB, hac]
        · by_cases hba : b.toNat < a.toNat
          · simp [strLeB, hab, hba] at h1
          · have h1r : strLeB as bs = true := by
              simpa [strLeB, hab, hba] using h1
            by_cases hbc : b.toNat < c.toNat
            · have hac : a.toNat < c.toNat := by omega
              simp [strLeB, hac]
            · by_cases hcb : c.toNat < b.toNat
              · simp [strLeB, hbc, hcb] at h2
              · have h2r : strLeB bs cs = true := by
                  simpa [strLeB, hbc, hcb] using h2
                have hac1 : ¬ a.toNat < c.toNat := by omega
                have hac2 : ¬ c.toNat < a.toNat := by omega
                simp [strLeB, hac1, hac2, ih bs cs h1r h2r]

/-- Python string ≤ on the two strings' characters. -/
def strLe (a b : String) : Bool := strLeB a.data b.data

/-- One ledger line as the merge sees it: a blank line, a line that fails
to parse as JSON, a parsed record without a truthy timestamp, or a parsed
record with its timestamp and the rest of its content. -/
inductive Line where
  | blank : Line
  | bad : String → Line
  | noTs : String → Line
  | valid : String → String → Line
deriving DecidableEq

/-- Whether a line is blank. -/
def Line.isBlank : Line → Bool
  | .blank => true
  | _ => false

/-- Whether a line parses with a truthy timestamp. -/
def Line.isValid : Line → Bool
  | .valid _ _ => true
  | _ => false

/-- Sort key of a merged line: its timestamp. -/
def tsKey : Line → String
  | .valid ts _ => ts
  | _ => ""

/-- Timestamp-descending order on ledger lines, the sort used by the merge
(reverse=True on the timestamp key). -/
def histOrder (a b : Line) : Prop := strLe (tsKey b) (tsKey a) = true

instance : DecidableRel histOrder := fun a b =>
  inferInstanceAs (Decidable (strLe (tsKey b) (tsKey a) = true))

instance : IsTotal Line histOrder :=
  ⟨fun a b => (strLeB_total (tsKey b).data (tsKey a).data).elim Or.inl Or.inr⟩

instance : IsTrans Line histOrder :=
  ⟨fun _ _ _ hab hbc => strLeB_trans _ _ _ hbc hab⟩

/-- The shared-seen deduplication pass of the merge: keep each parseable
timestamped line whose timestamp has not been seen, in order. -/
def dedupKeep : List String → List Line → List Line
  | _, [] => []
  | seen, .valid ts c :: rest =>
      if ts ∈ seen then dedupKeep seen rest
      else .valid ts c :: dedupKeep (ts :: seen) rest
  | seen, .blank :: rest => dedupKeep seen rest
  | seen, .bad _ :: rest => dedupKeep seen rest
  | seen, .noTs _ :: rest => dedupKeep seen rest

/-- The seen-timestamp set after the deduplication pass over a list. -/
def seenUpd : List String → List Line → List String
  | seen, [] => seen
  | seen, .valid ts _ :: rest =>
      if ts ∈ seen then seenUpd seen rest else seenUpd (ts :: seen) rest
  | seen, .blank :: rest => seenUpd seen rest
  | seen, .bad _ :: rest => seenUpd seen rest
  | seen, .noTs _ :: rest => seenUpd seen rest

/-- The merge's final sort: timestamp descending, stable. -/
def sortHistory (l : List Line) : List Line := List.insertionSort histOrder l

/-- Merge of the repository entries and the local entries. -/
def merge_entries (repoE localE : List Line) : List Line :=
  sortHistory (dedupKeep [] (repoE ++ localE))

/-- Both ledger files (none = the file does not exist) and counters for
the writes and commits performed by the merge. -/
structure LedgerState where
  repoLedger : Option (List Line)
  localLedger : Option (List Line)
  repoWrites : Nat
  localWrites : Nat
  commits : Nat
deriving DecidableEq

/-- Reading a ledger file: strip and drop blank lines. -/
def readEntries (l : List Line) : List Line := l.filter (fun e => !e.isBlank)

/-- File content produced by writing the merged entries: the entries each
followed by a newline; an empty merge writes a single blank line. -/
def writtenFile (entries : List Line) : List Line :=
  if entries = [] then [Line.blank] else entries

/-- BackupManager.sync_backup_history: read both ledgers, merge, and write
both plus commit only when the merged content differs from the current
repository ledger content.  Returns the merged entry count. -/
def sync_backup_history (st : LedgerState) : LedgerState × Nat :=
  match st.repoLedger with
  | none => (st, 0)
  | some repoRaw =>
    let merged := merge_entries (readEntries repoRaw)
                                (readEntries (st.localLedger.getD []))
    if repoRaw = writtenFile merged then (st, merged.length)
    else
      ({ repoLedger := some (writtenFile merged),
         localLedger := some (writtenFile merged),
         repoWrites := st.repoWrites + 1, localWrites := st.localWrites + 1,
         commits := st.commits + 1 }, merged.length)

/-- Every line kept by the deduplication pass is a parseable timestamped
line of the input whose timestamp was not already seen. -/
theorem dedupKeep_mem (l : List Line) : ∀ (seen : List String) (e : Line),
    e ∈ dedupKeep seen l → e.isValid = true ∧ tsKey e ∉ seen ∧ e ∈ l := by
  induction l with
  | nil =>
    intro seen e he
    simp [dedupKeep] at he
  | cons hd rest ih =>
    intro seen e he
    cases hd with
    | blank =>
      obtain ⟨h1, h2, h3⟩ := ih seen e he
      exact ⟨h1, h2, List.mem_cons_of_mem _ h3⟩
    | bad s =>
      obtain ⟨h1, h2, h3⟩ := ih seen e he
      exact ⟨h1, h2, List.mem_cons_of_mem _ h3⟩
    | noTs s =>
      obtain ⟨h1, h2, h3⟩ := ih seen e he
      exact ⟨h1, h2, List.mem_cons_of_mem _ h3⟩
    | valid ts c =>
      by_cases hts : ts ∈ seen
      · rw [dedupKeep, if_pos hts] at he
        obtain ⟨h1, h2, h3⟩ := ih seen e he
        exact ⟨h1, h2, List.mem_cons_of_mem _ h3⟩
      · rw [dedupKeep, if_neg hts] at he
        rcases List.mem_cons.mp he with heq | hmem
        · subst heq
          exact ⟨rfl, hts, List.mem_cons_self _ _⟩
        · obtain ⟨h1, h2, h3⟩ := ih (ts :: seen) e hmem
          exact ⟨h1, fun hc => h2 (List.mem_cons_of_mem _ hc),
                 List.mem_cons_of_mem _ h3⟩

/-- The deduplication pass yields pairwise distinct timestamps. -/
theorem dedupKeep_pairwise (l : List Line) : ∀ seen : List String,
    (dedupKeep seen l).Pairwise (fun a b => tsKey a ≠ tsKey b) := by
  induction l with
  | nil => intro seen; simp [dedupKeep]
  | cons hd rest ih =>
    intro seen
    cases hd with
    | blank => exact ih seen
    | bad s => exact ih seen
    | noTs s => exact ih seen
    | valid ts c =>
      by_cases hts : ts ∈ seen
      · rw [dedupKeep, if_pos hts]
        exact ih seen
      · rw [dedupKeep, if_neg hts]
        refine List.Pairwise.cons ?_ (ih (ts :: seen))
        intro e he hcontra
        apply (dedupKeep_mem rest (ts :: seen) e he).2.1
        rw [← hcontra]
        exact List.mem_cons_self _ _

/-- The seen set only grows during the pass. -/
theorem seenUpd_mono (l : List Line) : ∀ (seen : List String) (x : String),
    x ∈ seen → x ∈ seenUpd seen l := by
  induction l with
  | nil => intro seen x h; exact h
  | cons hd rest ih =>
    intro seen x h
    cases hd with
    | blank => exact ih seen x h
    | bad s => exact ih seen x h
    | noTs s => exact ih seen x h
    | valid ts c =>
      by_cases hts : ts ∈ seen
      · rw [seenUpd, if_pos hts]
        exact ih seen x h
      · rw [seenUpd, if_neg hts]
        exact ih (ts :: seen) x (List.mem_cons_of_mem _ h)

/-- After the pass, every parseable timestamped line of the input has its
timestamp in the seen set. -/
theorem seenUpd_covers (l : List Line) : ∀ (seen : List String) (e : Line),
    e ∈ l → e.isValid = true → tsKey e ∈ seenUpd seen l := by
  induction l with
  | nil =>
    intro seen e he
    simp at he
  | cons hd rest ih =>
    intro seen e he hv
    rcases List.mem_cons.mp he with heq | hmem
    · subst heq
      cases e with
      | blank => simp [Line.isValid] at hv
      | bad s => simp [Line.isValid] at hv
      | noTs s => simp [Line.isValid] at hv
      | valid ts c =>
        by_cases hts : ts ∈ seen
        · rw [seenUpd, if_pos hts]
          exact seenUpd_mono rest seen ts hts
        · rw [seenUpd, if_neg hts]
          exact seenUpd_mono rest (ts :: seen) ts (List.mem_cons_self _ _)
    · cases hd with
      | blank => exact ih seen e hmem hv
      | bad s => exact ih seen e hmem hv
      | noTs s => exact ih seen e hmem hv
      | valid ts c =>
        by_cases hts : ts ∈ seen
        · rw [seenUpd, if_pos hts]
          exact ih seen e hmem hv
        · rw [seenUpd, if_neg hts]
          exact ih (ts :: seen) e hmem hv

/-- The pass over an append is the pass over the first part followed by
the pass over the second with the updated seen set — exactly the merge's
two loops with one shared seen set. -/
theorem dedupKeep_append (a b : List Line) : ∀ seen : List String,
    dedupKeep seen (a ++ b) = dedupKeep seen a ++ dedupKeep (seenUpd seen a) b := by
  induction a with
  | nil => intro seen; simp [dedupKeep, seenUpd]
  | cons hd rest ih =>
    intro seen
    cases hd with
    | blank =>
      simp only [List.cons_append, dedupKeep, seenUpd]
      exact ih seen
    | bad s =>
      simp only [List.cons_append, dedupKeep, seenUpd]
      exact ih seen
    | noTs s =>
      simp only [List.cons_append, dedupKeep, seenUpd]
      exact ih seen
    | valid ts c =>
      by_cases hts : ts ∈ seen
      · simp only [List.cons_append, dedupKeep, seenUpd, if_pos hts]
        exact ih seen
      · simp only [List.cons_append, dedupKeep, seenUpd, if_neg hts]
        congr 1
        exact ih (ts :: seen)

/-- On a list of parseable timestamped lines with pairwise distinct, not
yet seen timestamps, the pass keeps everything. -/
theorem dedupKeep_eq_self (l : List Line) : ∀ seen : List String,
    (∀ e ∈ l, e.isValid = true) →
    l.Pairwise (fun a b => tsKey a ≠ tsKey b) →
    (∀ e ∈ l, tsKey e ∉ seen) →
    dedupKeep seen l = l := by
  induction l with
  | nil => intro seen _ _ _; rfl
  | cons hd rest ih =>
    intro seen hv hp hns
    cases hd with
    | blank =>
      have := hv _ (List.mem_cons_self _ _)
      simp [Line.isValid] at this
    | bad s =>
      have := hv _ (List.mem_cons_self _ _)
      simp [Line.isValid] at this
    | noTs s =>
      have := hv _ (List.mem_cons_self _ _)
      simp [Line.isValid] at this
    | valid ts c =>
      have hts : ts ∉ seen := hns _ (List.mem_cons_self _ _)
      rw [dedupKeep, if_neg hts]
      congr 1
      apply ih (ts :: seen)
      · intro e he
        exact hv e (List.mem_cons_of_mem _ he)
      · exact hp.of_cons
      · intro e he hc
        rcases List.mem_cons.mp hc with heq | hmem
        · exact (List.pairwise_cons.mp hp).1 e he heq.symm
        · exact hns e (List.mem_cons_of_mem _ he) hmem

/-- On a list of parseable timestamped lines whose timestamps were all
seen, the pass keeps nothing. -/
theorem dedupKeep_nil_of_covered (l : List Line) : ∀ seen : List String,
    (∀ e ∈ l, e.isValid = true) →
    (∀ e ∈ l, tsKey e ∈ seen) →
    dedupKeep seen l = [] := by
  induction l with
  | nil => intro seen _ _; rfl
  | cons hd rest ih =>
    intro seen hv hc
    cases hd with
    | blank =>
      have := hv _ (List.mem_cons_self _ _)
      simp [Line.isValid] at this
    | bad s =>
      have := hv _ (List.mem_cons_self _ _)
      simp [Line.isValid] at this
    | noTs s =>
      have := hv _ (List.mem_cons_self _ _)
      simp [Line.isValid] at this
    | valid ts c =>
      have hts : ts ∈ seen := hc _ (List.mem_cons_self _ _)
      rw [dedupKeep, if_pos hts]
      exact ih seen (fun e he => hv e (List.mem_cons_of_mem _ he))
        (fun e he => hc e (List.mem_cons_of_mem _ he))

/-- Every merged entry is a parseable timestamped line. -/
theorem merge_entries_valid (a b : List Line) :
    ∀ e ∈ merge_entries a b, e.isValid = true := by
  intro e he
  have hm : e ∈ dedupKeep [] (a ++ b) :=
    (List.mem_insertionSort histOrder).mp he
  exact (dedupKeep_mem _ _ _ hm).1

/-- Merged entries have pairwise distinct timestamps. -/
theorem merge_entries_pairwise (a b : List Line) :
    (merge_entries a b).Pairwise (fun x y => tsKey x ≠ tsKey y) := by
  have hperm := List.perm_insertionSort histOrder (dedupKeep [] (a ++ b))
  exact (hperm.pairwise_iff (fun h => Ne.symm h)).mpr (dedupKeep_pairwise _ _)

/-- Merged entries are sorted by timestamp descending. -/
theorem merge_entries_sorted (a b : List Line) :
    List.Sorted histOrder (merge_entries a b) :=
  List.sorted_insertionSort histOrder _

/-- Merging a merge result with itself reproduces it. -/
theorem merge_entries_idem (a b : List Line) :
    merge_entries (merge_entries a b) (merge_entries a b) = merge_entries a b := by
  have hv : ∀ e ∈ merge_entries a b, e.isValid = true := merge_entries_valid a b
  have hp : (merge_entries a b).Pairwise (fun x y => tsKey x ≠ tsKey y) :=
    merge_entries_pairwise a b
  have hd1 : dedupKeep [] (merge_entries a b) = merge_entries a b :=
    dedupKeep_eq_self _ [] hv hp (fun e _ hc => (List.not_mem_nil _) hc)
  have hd2 : dedupKeep (seenUpd [] (merge_entries a b)) (merge_entries a b) = [] :=
    dedupKeep_nil_of_covered _ _ hv
      (fun e he => seenUpd_covers _ [] e he (hv e he))
  show sortHistory (dedupKeep [] (merge_entries a b ++ merge_entries a b))
      = merge_entries a b
  rw [dedupKeep_append, hd1, hd2, List.append_nil]
  exact (merge_entries_sorted a b).insertionSort_eq

/-- Reading back a written merge result returns exactly the entries. -/
theorem readEntries_writtenFile (M : List Line)
    (hv : ∀ e ∈ M, e.isValid = true) :
    readEntries (writtenFile M) = M := by
  unfold writtenFile readEntries
  by_cases hM : M = []
  · subst hM
    rfl
  · rw [if_neg hM]
    apply List.filter_eq_self.mpr
    intro e he
    have := hv e he
    cases e <;> simp_all [Line.isValid, Line.isBlank]

/-- A parseable timestamped line of the input with an unseen timestamp is
represented in the pass output by an entry with the same timestamp (the
first occurrence). -/
theorem dedupKeep_covers (l : List Line) : ∀ (seen : List String) (r : Line),
    r ∈ l → r.isValid = true → tsKey r ∉ seen →
    ∃ e ∈ dedupKeep seen l, tsKey e = tsKey r := by
  induction l with
  | nil =>
    intro seen r hr
    simp at hr
  | cons hd rest ih =>
    intro seen r hr hrv hns
    cases hd with
    | blank =>
      rcases List.mem_cons.mp hr with heq | hmem
      · subst heq
        simp [Line.isValid] at hrv
      · exact ih seen r hmem hrv hns
    | bad s =>
      rcases List.mem_cons.mp hr with heq | hmem
      · subst heq
        simp [Line.isValid] at hrv
      · exact ih seen r hmem hrv hns
    | noTs s =>
      rcases List.mem_cons.mp hr with heq | hmem
      · subst heq
        simp [Line.isValid] at hrv
      · exact ih seen r hmem hrv hns
    | valid ts c =>
      by_cases hts : ts ∈ seen
      · rw [dedupKeep, if_pos hts]
        rcases List.mem_cons.mp hr with heq | hmem
        · subst heq
          exact absurd hts hns
        · exact ih seen r hmem hrv hns
      · rw [dedupKeep, if_neg hts]
        by_cases hteq : tsKey r = ts
        · exact ⟨Line.valid ts c, List.mem_cons_self _ _, hteq.symm⟩
        · rcases List.mem_cons.mp hr with heq | hmem
          · subst heq
            exact absurd rfl hteq
          · obtain ⟨e, hemem, hets⟩ := ih (ts :: seen) r hmem hrv
              (fun hc => (List.mem_cons.mp hc).elim hteq hns)
            exact ⟨e, List.mem_cons_of_mem _ hemem, hets⟩

/-- Evaluation of the merge on a present repository ledger. -/
theorem sync_eval_some (repoL : List Line) (lL : Option (List Line))
    (a b c : Nat) :
    sync_backup_history ⟨some repoL, lL, a, b, c⟩
      = (if repoL
            = writtenFile (merge_entries (readEntries repoL) (readEntries (lL.getD [])))
         then ((⟨some repoL, lL, a, b, c⟩ : LedgerState),
               (merge_entries (readEntries repoL) (readEntries (lL.getD []))).length)
         else (⟨some (writtenFile (merge_entries (readEntries repoL)
                        (readEntries (lL.getD [])))),
                some (writtenFile (merge_entries (readEntries repoL)
                        (readEntries (lL.getD [])))),
                a + 1, b + 1, c + 1⟩,
               (merge_entries (readEntries repoL) (readEntries (lL.getD []))).length)) :=
  rfl

/-! ## Restore Engine (BackupManager.restore, lines 848-1100)

After resolving the snapshot and validating its manifest, the restore
walks the manifest's folder mapping.  Each folder is either an encrypted
archive, a plain archive, or a plain tree whose files are decrypted or
copied one by one.  A failure inside a folder's processing (directory
creation, archive extraction) is recorded in the failure list and the loop
continues; a failure on a single file of a tree is recorded and the
remaining files are still processed.  At the end the run raises exactly
when zero files were restored, and otherwise returns a success result with
the restored count and the failure list.  Decrypt/copy/extract outcomes
are oracles carried by the data. -/

/-- Storage shape of one staged folder, with the outcome of restoring it:
archives carry their member count and whether extraction succeeds, trees
carry each file path with its per-file restore outcome. -/
inductive Payload where
  | encArchive (members : Nat) (ok : Bool)
  | plainArchive (members : Nat) (ok : Bool)
  | tree (files : List (String × Bool))
deriving DecidableEq

/-- One folder of the manifest mapping as the restore sees it. -/
structure RFolder where
  name : String
  present : Bool
  mkdirOk : Bool
  payload : Payload
deriving DecidableEq

/-- The per-file loop of the tree case: a failing file joins the failure
list and the loop continues with the remaining files. -/
def restoreTree : List (String × Bool) → Nat × List String
  | [] => (0, [])
  | (p, ok) :: rest =>
    if ok then ((restoreTree rest).1 + 1, (restoreTree rest).2)
    else ((restoreTree rest).1, p :: (restoreTree rest).2)

/-- Restoring one folder: a missing source folder is skipped with a
warning; a failure of the directory creation or of the archive handling is
recorded as one failure entry for the folder; a tree is restored file by
file. -/
def restoreFolder (f : RFolder) : Nat × List String :=
  if f.present = false then (0, [])
  else if f.mkdirOk = false then (0, [f.name])
  else
    match f.payload with
    | .encArchive n ok => if ok then (n, []) else (0, [f.name])
    | .plainArchive n ok => if ok then (n, []) else (0, [f.name])
    | .tree files => restoreTree files

/-- The folder loop of the restore, accumulating the restored count and
the failure list. -/
def restoreRun : List RFolder → Nat × List String
  | [] => (0, [])
  | f :: rest =>
    ((restoreFolder f).1 + (restoreRun rest).1,
     (restoreFolder f).2 ++ (restoreRun rest).2)

/-- The success payload returned by BackupManager.restore. -/
structure RestoreResult where
  status : String
  files_restored : Nat
  failed_files : List String
deriving DecidableEq

/-- BackupManager.restore after manifest validation: raise exactly when
zero files were restored, otherwise return the success result. -/
def restore (folders : List RFolder) : Except String RestoreResult :=
  if (restoreRun folders).1 = 0 then Except.error "No files were restored"
  else Except.ok ⟨"success", (restoreRun folders).1, (restoreRun folders).2⟩

/-- Specification-side count: the sum over folders of each folder's
restored files. -/
def totalRestored (folders : List RFolder) : Nat :=
  (folders.map (fun f => (restoreFolder f).1)).sum

/-- Specification-side failure list: the concatenation of each folder's
failures, in folder order. -/
def failedOf (folders : List RFolder) : List String :=
  (folders.map (fun f => (restoreFolder f).2)).flatten

/-- The folder loop computes the per-folder sums and concatenations. -/
theorem restoreRun_eq (folders : List RFolder) :
    restoreRun folders = (totalRestored folders, failedOf folders) := by
  induction folders with
  | nil => rfl
  | cons f rest ih =>
    simp [restoreRun, totalRestored, failedOf, ih]

/-- The per-file loop restores exactly the succeeding files and records
exactly the failing paths, in order. -/
theorem restoreTree_eq (files : List (String × Bool)) :
    restoreTree files
      = ((files.filter (fun pr => pr.2)).length,
         (files.filter (fun pr => !pr.2)).map Prod.fst) := by
  induction files with
  | nil => rfl
  | cons pr rest ih =>
    rcases pr with ⟨p, ok⟩
    cases ok <;> simp [restoreTree, ih, List.filter_cons]

/-! ## Retention (BackupManager.cleanup_old_backups, lines 1217-1259)

With a retention window, every commit whose commit date is strictly older
than now minus the window is removed by hard-resetting the branch to the
commit's parent and force-pushing; a failing reset (in particular on the
root commit, which has no parent) is logged and not counted.  The local
ledger and the last-run marker are only cleared by the delete-all path
(retention_days is None).  Sizes are not modelled; the removed count and
the two local files are. -/

/-- One commit of the remote history, newest first, with its commit date
and whether a parent exists for the hard reset. -/
structure Commit where
  sha : String
  date : Int
  hasParent : Bool
deriving DecidableEq

/-- Retention-relevant state: the commit list and the two local files. -/
structure RetState where
  commits : List Commit
  localHistoryExists : Bool
  lastBackupExists : Bool
deriving DecidableEq

/-- BackupManager.cleanup_all_backups restricted to the effects relevant
here: it clears the local ledger and the last-run marker. -/
def cleanup_all_backups (st : RetState) : RetState :=
  { st with localHistoryExists := false, lastBackupExists := false }

/-- The removed-count accumulation of the retention loop. -/
def retentionLoop (cutoff : Int) : List Commit → Nat
  | [] => 0
  | cm :: rest =>
    (if cm.date < cutoff ∧ cm.hasParent = true then 1 else 0)
      + retentionLoop cutoff rest

/-- BackupManager.cleanup_old_backups: delete-all when no window is given,
otherwise remove the commits older than the cutoff, touching neither the
local ledger nor the last-run marker. -/
def cleanup_old_backups (st : RetState) (retention_days : Option Nat)
    (now : Int) : RetState × Nat :=
  match retention_days with
  | none => (cleanup_all_backups st, 0)
  | some d => (st, retentionLoop (now - 86400 * (d : Int)) st.commits)

/-- The retention loop distributes over list append. -/
theorem retentionLoop_append (cutoff : Int) (a b : List Commit) :
    retentionLoop cutoff (a ++ b)
      = retentionLoop cutoff a + retentionLoop cutoff b := by
  induction a with
  | nil => simp [retentionLoop]
  | cons cm rest ih => simp [retentionLoop, ih]; omega

/-- Commits that are all old enough and all have parents are all counted. -/
theorem retentionLoop_all (cutoff : Int) (l : List Commit)
    (h : ∀ cm ∈ l, cm.date < cutoff ∧ cm.hasParent = true) :
    retentionLoop cutoff l = l.length := by
  induction l with
  | nil => rfl
  | cons cm rest ih =>
    have hcm := h cm (List.mem_cons_self _ _)
    simp [retentionLoop, hcm, ih (fun x hx => h x (List.mem_cons_of_mem _ hx))]
    omega

end AutoStash

namespace AutoStash

/-- C3: running the history merge twice in a row with no new entries in
between leaves the second call with nothing to write or commit — the
ledger files and the write/commit counters are unchanged by the second
call. -/
theorem C3_merge_idempotent (st : LedgerState) :
    (sync_backup_history (sync_backup_history st).1).1 = (sync_backup_history st).1 := by
  rcases st with ⟨r, lL, a, b, c⟩
  cases r with
  | none => rfl
  | some repoRaw =>
    rw [sync_eval_some]
    by_cases heq : repoRaw
        = writtenFile (merge_entries (readEntries repoRaw) (readEntries (lL.getD [])))
    · rw [if_pos heq]
      rw [sync_eval_some, if_pos heq]
    · rw [if_neg heq]
      rw [sync_eval_some]
      have hv : ∀ e ∈ merge_entries (readEntries repoRaw) (readEntries (lL.getD [])),
          Line.isValid e = true := merge_entries_valid _ _
      rw [Option.getD_some,
          readEntries_writtenFile (merge_entries (readEntries repoRaw)
            (readEntries (lL.getD []))) hv,
          merge_entries_idem, if_pos rfl]

/-- C4: the merge of the repository ledger entries and the local ledger
entries has at most one entry per timestamp, is sorted by timestamp
descending, keeps only repository entries or local entries whose timestamp
collides with no parseable repository entry, and represents the timestamp
of every parseable repository entry by a repository-sourced entry. -/
theorem C4_merge_by_timestamp (repoE localE : List Line) :
    (merge_entries repoE localE).Pairwise (fun x y => tsKey x ≠ tsKey y)
    ∧ List.Sorted histOrder (merge_entries repoE localE)
    ∧ (∀ e ∈ merge_entries repoE localE,
        e ∈ repoE ∨ (e ∈ localE ∧ ∀ r ∈ repoE, r.isValid = true → tsKey r ≠ tsKey e))
    ∧ (∀ r ∈ repoE, r.isValid = true →
        ∃ e ∈ merge_entries repoE localE, tsKey e = tsKey r ∧ e ∈ repoE) := by
  refine ⟨merge_entries_pairwise _ _, merge_entries_sorted _ _, ?_, ?_⟩
  · intro e he
    have hm : e ∈ dedupKeep [] (repoE ++ localE) :=
      (List.mem_insertionSort histOrder).mp he
    rw [dedupKeep_append] at hm
    rcases List.mem_append.mp hm with h1 | h2
    · exact Or.inl (dedupKeep_mem _ _ _ h1).2.2
    · obtain ⟨_, hns, hmem⟩ := dedupKeep_mem _ _ _ h2
      refine Or.inr ⟨hmem, ?_⟩
      intro r hr hrv hcontra
      apply hns
      rw [← hcontra]
      exact seenUpd_covers _ [] r hr hrv
  · intro r hr hrv
    obtain ⟨e, hemem, hets⟩ := dedupKeep_covers repoE [] r hr hrv (List.not_mem_nil _)
    have hein : e ∈ dedupKeep [] (repoE ++ localE) := by
      rw [dedupKeep_append]
      exact List.mem_append_left _ hemem
    exact ⟨e, (List.mem_insertionSort histOrder).mpr hein, hets,
           (dedupKeep_mem _ _ _ hemem).2.2⟩

/-- C4 witness: a timestamp collision between a repository entry and a
different local entry — the merged ledger keeps a repository-sourced entry
for that timestamp. -/
theorem C4_witness :
    ∃ e ∈ merge_entries [Line.valid "T1" "repo"]
        [Line.valid "T1" "local", Line.valid "T0" "x"],
      tsKey e = tsKey (Line.valid "T1" "repo") ∧ e ∈ [Line.valid "T1" "repo"] :=
  (C4_merge_by_timestamp [Line.valid "T1" "repo"]
      [Line.valid "T1" "local", Line.valid "T0" "x"]).2.2.2
    (Line.valid "T1" "repo") (List.mem_cons_self _ _) rfl

/-- C6: per-file and per-folder restore failures accumulate in the failure
list without aborting the rest; the restore errors exactly when zero files
were restored across all folders, and otherwise returns a success result
carrying the restored count and the failed paths. -/
theorem C6_restore_isolation (folders : List RFolder) :
    ((restore folders).isOk = true ↔ 0 < totalRestored folders)
    ∧ (∀ res, restore folders = Except.ok res →
        res.status = "success" ∧ res.files_restored = totalRestored folders
          ∧ res.failed_files = failedOf folders)
    ∧ (∀ files : List (String × Bool),
        restoreTree files
          = ((files.filter (fun pr => pr.2)).length,
             (files.filter (fun pr => !pr.2)).map Prod.fst)) := by
  have hrun : restoreRun folders = (totalRestored folders, failedOf folders) :=
    restoreRun_eq folders
  refine ⟨?_, ?_, restoreTree_eq⟩
  · by_cases h : (restoreRun folders).1 = 0
    · have h0 : totalRestored folders = 0 := by
        rw [hrun] at h
        exact h
      simp [restore, h, h0, Except.isOk, Except.toBool]
    · have h0 : totalRestored folders ≠ 0 := by
        rw [hrun] at h
        exact h
      constructor
      · intro _
        omega
      · intro _
        simp [restore, h, Except.isOk, Except.toBool]
  · intro res hres
    by_cases h : (restoreRun folders).1 = 0
    · simp [restore, h] at hres
    · simp only [restore, if_neg h] at hres
      cases hres
      rw [hrun]
      exact ⟨rfl, rfl, rfl⟩

/-- The ten-file, one-failure scenario used to witness the restore
theorem. -/
def demoRestoreFolders : List RFolder :=
  [⟨"docs", true, true, Payload.tree
      [("f1", true), ("f2", true), ("f3", true), ("f4", true), ("f5", false),
       ("f6", true), ("f7", true), ("f8", true), ("f9", true),
       ("f10", true)]⟩]

/-- C6 witness: ten files with one undecryptable; the restore succeeds,
reports nine restored files and one failure entry. -/
theorem C6_witness :
    (restore demoRestoreFolders).isOk = true
    ∧ RestoreResult.files_restored ⟨"success", 9, ["f5"]⟩
        = totalRestored demoRestoreFolders
    ∧ RestoreResult.failed_files ⟨"success", 9, ["f5"]⟩
        = failedOf demoRestoreFolders :=
  ⟨(C6_restore_isolation demoRestoreFolders).1.mpr (by decide),
   ((C6_restore_isolation demoRestoreFolders).2.1 ⟨"success", 9, ["f5"]⟩ rfl).2.1,
   ((C6_restore_isolation demoRestoreFolders).2.1 ⟨"success", 9, ["f5"]⟩ rfl).2.2⟩

/-- C7 counterexample: retention-by-age with a zero-day window over a
three-commit history all older than now removes only two commits, not
three — the hard reset to the parent of the root commit fails. -/
theorem C7_counterexample :
    (cleanup_old_backups
        ⟨[⟨"c3", 30, true⟩, ⟨"c2", 20, true⟩, ⟨"c1", 10, false⟩], true, true⟩
        (some 0) 100).2 = 2
    ∧ (cleanup_old_backups
        ⟨[⟨"c3", 30, true⟩, ⟨"c2", 20, true⟩, ⟨"c1", 10, false⟩], true, true⟩
        (some 0) 100).2 ≠ 3 := by
  constructor
  · decide
  · decide

/-- C7 (amended): retention-by-age with retentionDays = 0 over a history
of commits all dated before now, of which exactly the last (the root) has
no parent, removes all commits except the root — removed equals the
history length minus one — and leaves both the local ledger and the
last-run marker untouched. -/
theorem C7_retention_age_zero (st : RetState) (now : Int) (l : List Commit)
    (root : Commit)
    (hc : st.commits = l ++ [root])
    (hroot : root.hasParent = false)
    (hl : ∀ cm ∈ l, cm.hasParent = true)
    (hold : ∀ cm ∈ st.commits, cm.date < now) :
    (cleanup_old_backups st (some 0) now).2 = l.length
    ∧ (cleanup_old_backups st (some 0) now).1.localHistoryExists
        = st.localHistoryExists
    ∧ (cleanup_old_backups st (some 0) now).1.lastBackupExists
        = st.lastBackupExists := by
  refine ⟨?_, rfl, rfl⟩
  show retentionLoop (now - 86400 * ((0 : Nat) : Int)) st.commits = l.length
  have hcut : now - 86400 * ((0 : Nat) : Int) = now := by
    simp
  rw [hcut, hc, retentionLoop_append]
  have hone : retentionLoop now [root] = 0 := by
    simp [retentionLoop, hroot]
  rw [hone]
  have hall : retentionLoop now l = l.length := by
    apply retentionLoop_all
    intro cm hcm
    exact ⟨hold cm (by rw [hc]; exact List.mem_append_left _ hcm), hl cm hcm⟩
  rw [hall]
  omega

/-- C7 witness: the amended statement on the concrete three-commit
history; two commits are removed and both local files survive. -/
theorem C7_witness :
    (cleanup_old_backups
        ⟨[⟨"c3", 30, true⟩, ⟨"c2", 20, true⟩, ⟨"c1", 10, false⟩], true, true⟩
        (some 0) 100).2 = 2
    ∧ (cleanup_old_backups
        ⟨[⟨"c3", 30, true⟩, ⟨"c2", 20, true⟩, ⟨"c1", 10, false⟩], true, true⟩
        (some 0) 100).1.localHistoryExists = true :=
  ⟨(C7_retention_age_zero
      ⟨[⟨"c3", 30, true⟩, ⟨"c2", 20, true⟩, ⟨"c1", 10, false⟩], true, true⟩
      100 [⟨"c3", 30, true⟩, ⟨"c2", 20, true⟩] ⟨"c1", 10, false⟩
      rfl rfl (by decide) (by decide)).1,
   (C7_retention_age_zero
      ⟨[⟨"c3", 30, true⟩, ⟨"c2", 20, true⟩, ⟨"c1", 10, false⟩], true, true⟩
      100 [⟨"c3", 30, true⟩, ⟨"c2", 20, true⟩] ⟨"c1", 10, false⟩
      rfl rfl (by decide) (by decide)).2.1⟩

/-- C9 counterexample: with four source folders the generated name carries
an "_etc" suffix instead of the fourth basename, so it differs from the
prefix-plus-all-basenames form stated in the claim. -/
theorem C9_counterexample :
    backup_folder_name "20240101_1200" ["/a", "/b", "/c", "/d"]
      ≠ "Backup_" ++ "20240101_1200" ++ "_"
          ++ joinUnderscore (["/a", "/b", "/c", "/d"].map basename) := by
  decide

/-- C9 (amended): for runs with at most three source folders the snapshot
name is the literal prefix "Backup_", the run timestamp, an underscore, and
all folder basenames joined by underscores; with more than three folders
only the first three basenames are joined and the name ends in "_etc". -/
theorem C9_snapshot_name (ts : String) (folders : List String) :
    (folders.length ≤ 3 →
      backup_folder_name ts folders
        = "Backup_" ++ ts ++ "_" ++ joinUnderscore (folders.map basename))
    ∧ (3 < folders.length →
      backup_folder_name ts folders
        = "Backup_" ++ ts ++ "_"
            ++ joinUnderscore ((folders.map basename).take 3) ++ "_etc") := by
  constructor
  · intro h
    have hlen : (folders.map basename).length ≤ 3 := by
      simpa using h
    have htake : (folders.map basename).take 3 = folders.map basename :=
      List.take_of_length_le hlen
    simp only [backup_folder_name, backupNamePart, htake]
    rw [if_neg (by simpa using not_lt.mpr h)]
  · intro h
    simp only [backup_folder_name, backupNamePart]
    rw [if_pos (by simpa using h)]
    simp [String.append_assoc]

/-- C1: if staging any source folder fails, the run returns an error, the
staging directory built so far is deleted, and no commit or push is
performed. -/
theorem C1_no_partial_snapshot (env : RunEnv) (folders : List String)
    (ts : String) (encrypt compress : Bool) (f : String)
    (hf : f ∈ folders) (hfail : env.copyOk f = false) :
    (run env folders ts encrypt compress).2.isOk = false
    ∧ (run env folders ts encrypt compress).1.stagingExists = false
    ∧ (run env folders ts encrypt compress).1.committed = false
    ∧ (run env folders ts encrypt compress).1.pushed = false := by
  have hstage : ∀ l : List String, f ∈ l → stageFolders env l ≠ none := by
    intro l hl
    induction l with
    | nil => cases hl
    | cons a rest ih =>
      rcases List.mem_cons.mp hl with heq | hmem
      · subst heq
        simp [stageFolders, hfail]
      · by_cases ha : env.copyOk a = true
        · simpa [stageFolders, ha] using ih hmem
        · simp [stageFolders, ha]
  by_cases h1 : folders = []
  · exact absurd (h1 ▸ hf) (List.not_mem_nil f)
  · by_cases h2 : folders.all env.folderOk = true
    · by_cases h3 : env.repoAccessible = true
      · by_cases h4 : env.prepareOk = true
        · cases hs : stageFolders env folders with
          | none => exact absurd hs (hstage folders hf)
          | some e =>
            simp [run, h1, h2, h3, h4, hs, initRunState, Except.isOk, Except.toBool]
        · simp [run, h1, h2, h3, h4, initRunState, Except.isOk, Except.toBool]
      · simp [run, h1, h2, h3, initRunState, Except.isOk, Except.toBool]
    · simp [run, h1, h2, initRunState, Except.isOk, Except.toBool]

/-- C1 witness: a run over two folders where the second folder's copy
fails; the run errors, the staging directory is gone, nothing was
committed or pushed. -/
theorem C1_witness :
    (run ⟨fun _ => true, fun g => !(g == "/b"), true, true, true, true,
          ⟨true, true, true, true⟩, true, true⟩
        ["/a", "/b", "/c"] "20240101_1200" false false).2.isOk = false
    ∧ (run ⟨fun _ => true, fun g => !(g == "/b"), true, true, true, true,
          ⟨true, true, true, true⟩, true, true⟩
        ["/a", "/b", "/c"] "20240101_1200" false false).1.stagingExists = false :=
  ⟨(C1_no_partial_snapshot _ ["/a", "/b", "/c"] "20240101_1200" false false
      "/b" (by decide) (by decide)).1,
   (C1_no_partial_snapshot _ ["/a", "/b", "/c"] "20240101_1200" false false
      "/b" (by decide) (by decide)).2.1⟩

/-- C5: a push rejection triggers exactly one pull and one retried push;
the retried push failing yields an error; in all cases a call makes at
most two push attempts and at most one pull. -/
theorem C5_push_retry (g : GitEnv) :
    ((git_commit_push g).pushAttempts ≤ 2 ∧ (git_commit_push g).pullAttempts ≤ 1)
    ∧ (g.dirtyOrUntracked = true → g.push1Ok = false →
        (git_commit_push g).pullAttempts = 1
        ∧ (g.pullOk = true →
            (git_commit_push g).pushAttempts = 2
            ∧ ((git_commit_push g).err = none ↔ g.push2Ok = true))
        ∧ (g.pullOk = true → g.push2Ok = false →
            (git_commit_push g).err.isSome = true)) := by
  rcases g with ⟨(_ | _), (_ | _), (_ | _), (_ | _)⟩ <;> decide

/-- C5 witness: a rejected push followed by a successful pull and a second
rejection — exactly two push attempts, and an error is raised. -/
theorem C5_witness :
    (git_commit_push ⟨true, false, true, false⟩).pushAttempts = 2
    ∧ (git_commit_push ⟨true, false, true, false⟩).err.isSome = true :=
  ⟨(((C5_push_retry ⟨true, false, true, false⟩).2 rfl rfl).2.1 rfl).1,
   ((C5_push_retry ⟨true, false, true, false⟩).2 rfl rfl).2.2 rfl rfl⟩

/-- C10: when every step through commit and push succeeds but the history
append fails, the run still returns a success result while the ledger was
never appended — a success result does not guarantee a ledger entry. -/
theorem C10_success_without_history (env : RunEnv) (folders : List String)
    (ts : String) (encrypt compress : Bool)
    (hne : folders ≠ [])
    (hvalid : folders.all env.folderOk = true)
    (hacc : env.repoAccessible = true)
    (hprep : env.prepareOk = true)
    (hcopy : stageFolders env folders = none)
    (hmeta : env.metadataOk = true)
    (hproc : env.processOk = true)
    (hgit : (git_commit_push env.git).err = none)
    (hcommitted : (git_commit_push env.git).committed = true)
    (hhist : env.appendHistoryOk = false) :
    (run env folders ts encrypt compress).2
        = Except.ok ⟨"success", backup_folder_name ts folders⟩
    ∧ (run env folders ts encrypt compress).1.historyAppended = false
    ∧ (run env folders ts encrypt compress).1.pushed = true := by
  by_cases hrec : env.recordTimeOk = true <;>
    simp [run, hne, hvalid, hacc, hprep, hcopy, hmeta, hproc, hgit,
          hcommitted, hhist, hrec]

/-- C10 witness: a concrete run in which everything succeeds except the
history append; the result is a success and the ledger entry is missing. -/
theorem C10_witness :
    (run ⟨fun _ => true, fun _ => true, true, true, true, true,
          ⟨true, true, true, true⟩, true, false⟩
        ["/home/u/docs"] "20240101_1200" false false).2
      = Except.ok ⟨"success", backup_folder_name "20240101_1200" ["/home/u/docs"]⟩
    ∧ (run ⟨fun _ => true, fun _ => true, true, true, true, true,
          ⟨true, true, true, true⟩, true, false⟩
        ["/home/u/docs"] "20240101_1200" false false).1.historyAppended = false :=
  ⟨(C10_success_without_history
      ⟨fun _ => true, fun _ => true, true, true, true, true,
        ⟨true, true, true, true⟩, true, false⟩
      ["/home/u/docs"] "20240101_1200" false false
      (by decide) (by decide) rfl rfl rfl rfl rfl rfl rfl rfl).1,
   (C10_success_without_history
      ⟨fun _ => true, fun _ => true, true, true, true, true,
        ⟨true, true, true, true⟩, true, false⟩
      ["/home/u/docs"] "20240101_1200" false false
      (by decide) (by decide) rfl rfl rfl rfl rfl rfl rfl rfl).2.1⟩

/-- C2: if the staging directory contains a manifest and packaging raises
partway through compression or encryption, the manifest is still present
afterwards with its original content — the temporary copy is restored
before the error is propagated. -/
theorem C2_manifest_preserved (compress encrypt : Bool) (keys : List String)
    (fails : String → Bool) (st : Staging) (m : String)
    (hm : st.manifestContent = some m)
    (_herr : (process_backup_files compress encrypt keys fails st).2.isSome = true) :
    (process_backup_files compress encrypt keys fails st).1.manifestContent = some m := by
  unfold process_backup_files
  rw [hm]

/-- C2 witness: a concrete packaging run that fails (encryption requested
with no keys) on a staging directory with a manifest; the manifest
survives. -/
theorem C2_witness :
    (process_backup_files false true [] (fun _ => false)
        ⟨some "MANIFEST", none, [⟨"docs", ["a.txt", "b.txt"]⟩]⟩).2.isSome = true
    ∧ (process_backup_files false true [] (fun _ => false)
        ⟨some "MANIFEST", none, [⟨"docs", ["a.txt", "b.txt"]⟩]⟩).1.manifestContent
      = some "MANIFEST" :=
  ⟨by decide,
   C2_manifest_preserved false true [] (fun _ => false)
     ⟨some "MANIFEST", none, [⟨"docs", ["a.txt", "b.txt"]⟩]⟩ "MANIFEST"
     (by decide) (by decide)⟩

/-- C8 counterexample: with destination directory "D" and every listed
file readable, /etc/hosts is not copied to D/etc/hosts as the claim
states; it is copied to D/system_config/etc/hosts. -/
theorem C8_counterexample :
    (("/etc/hosts", "D/etc/hosts")
        ∉ (backup_system_files "D" (fun _ => FileStatus.readable)).1)
    ∧ ("/etc/hosts", "D/system_config/etc/hosts")
        ∈ (backup_system_files "D" (fun _ => FileStatus.readable)).1 := by
  decide

/-- C8 (amended): every readable allow-listed file is copied to the
destination directory, under an extra system_config level, at its original
absolute path minus the leading separator (so /etc/hosts lands at
destinationDir/system_config/etc/hosts); only readable listed files are
copied, files absent from the filesystem leave no trace, and a permission
failure on a single file is logged and skipped without aborting the run. -/
theorem C8_system_file_collector (dest : String) (fs : String → FileStatus)
    (hd : dest ≠ "") (hds : dest.data.getLast? ≠ some '/') :
    (∀ fp ∈ critical_files, fs fp = .readable →
        (fp, dest ++ "/system_config" ++ fp) ∈ (backup_system_files dest fs).1)
    ∧ (∀ pr ∈ (backup_system_files dest fs).1,
        pr.1 ∈ critical_files ∧ fs pr.1 = .readable)
    ∧ (∀ fp, fp ∈ (backup_system_files dest fs).2 ↔
        fp ∈ critical_files ∧ fs fp = .unreadable) := by
  have hsbp : joinPath dest "system_config" = dest ++ "/system_config" := by
    rw [joinPath_eq dest "system_config" hd hds (by decide), String.append_assoc]
    rfl
  have hbs : backup_system_files dest fs
      = backupSysLoop (dest ++ "/system_config") fs critical_files := by
    unfold backup_system_files
    rw [hsbp]
  have h1x : dest ++ "/system_config" ≠ "" :=
    str_append_ne_empty _ _ (by decide)
  have h2x : (dest ++ "/system_config").data.getLast? ≠ some '/' := by
    rw [str_getLast_append _ _ (by decide)]
    decide
  obtain ⟨hs1, hs2, hs3⟩ :=
    backupSysLoop_sound (dest ++ "/system_config") fs critical_files
  refine ⟨?_, ?_, ?_⟩
  · intro fp hfp hr
    rw [hbs]
    have hbase := hs1 fp hfp hr
    have heq : copyTarget (dest ++ "/system_config") fp
        = dest ++ "/system_config" ++ fp := by
      fin_cases hfp <;>
        · rw [copyTarget_eq _ _ h1x h2x (by decide) (by decide) (by decide) (by decide)]
          simp only [String.append_assoc]
          rfl
    rw [← heq]
    exact hbase
  · intro pr hpr
    rw [hbs] at hpr
    exact hs2 pr hpr
  · intro fp
    rw [hbs]
    exact hs3 fp

/-- C8 witness: the amended statement evaluated with destination "D", a
readable /etc/hosts and an unreadable /etc/shadow. -/
theorem C8_witness :
    ("/etc/hosts", "D" ++ "/system_config" ++ "/etc/hosts")
        ∈ (backup_system_files "D"
            (fun fp => if fp = "/etc/hosts" then FileStatus.readable
                       else if fp = "/etc/shadow" then FileStatus.unreadable
                       else FileStatus.absent)).1
    ∧ "/etc/shadow"
        ∈ (backup_system_files "D"
            (fun fp => if fp = "/etc/hosts" then FileStatus.readable
                       else if fp = "/etc/shadow" then FileStatus.unreadable
                       else FileStatus.absent)).2 :=
  ⟨(C8_system_file_collector "D" _ (by decide) (by decide)).1
      "/etc/hosts" (by decide) (by decide),
   ((C8_system_file_collector "D" _ (by decide) (by decide)).2.2
      "/etc/shadow").mpr ⟨by decide, by decide⟩⟩

/-- C9 witness: the amended statement evaluated on a concrete two-folder
run. -/
theorem C9_witness :
    (["/home/u/docs", "/home/u/pics"] : List String).length ≤ 3 ∧
    backup_folder_name "20240101_1200" ["/home/u/docs", "/home/u/pics"]
      = "Backup_" ++ "20240101_1200" ++ "_"
          ++ joinUnderscore (["/home/u/docs", "/home/u/pics"].map basename) :=
  ⟨by decide, (C9_snapshot_name "20240101_1200" ["/home/u/docs", "/home/u/pics"]).1 (by decide)⟩

end AutoStash
